import Mathlib

/-!
Verification development for the minichess repository (src/chess_game.rs,
src/stockfish.rs): a shallow embedding of the session controller
(`ChessGame`), the engine adapter read loop (`get_best_move`), and the
notation renderer (`to_algebraic_notation`), together with theorems about
the repository's undo/redo bookkeeping, move commits and rendering.

The repository delegates chess rules to the external `chess` crate (the
spec's Position Oracle).  That crate is not part of the repository's
sources, so its operations used by `chess_game.rs` (`MoveGen::new_legal`,
`Board::make_move_new`, `Game::make_move`, `Square::from_str`,
`Board::piece_on`, `Board::checkers`) are modelled below by executable
standard-chess definitions.
-/

namespace Minichess

/-- Colour of a side, as in the chess crate (`chess::Color`). -/
inductive Color where
  | white
  | black
deriving DecidableEq, Repr

/-- The opposite colour. -/
def Color.opp : Color → Color
  | .white => .black
  | .black => .white

/-- Piece kinds, as in the chess crate (`chess::Piece`). -/
inductive Piece where
  | pawn
  | knight
  | bishop
  | rook
  | queen
  | king
deriving DecidableEq, Repr

/-- A board square: file 0..7 (a..h) and rank 0..7 (1..8). -/
structure Square where
  file : Nat
  rank : Nat
deriving DecidableEq, Repr

/-- A move: source square, destination square, optional promotion piece,
as in `chess::ChessMove`. -/
structure ChessMove where
  source : Square
  dest : Square
  promotion : Option Piece
deriving DecidableEq, Repr

/-- Castling availability for both sides. -/
structure CastleRights where
  wk : Bool
  wq : Bool
  bk : Bool
  bq : Bool
deriving DecidableEq, Repr

/-- Modelled from the spec: the Position Oracle's immutable position value
(`chess::Board`): 64 squares indexed by `rank * 8 + file`, the side to
move, castling rights and the en-passant target square. -/
structure Board where
  squares : List (Option (Color × Piece))
  sideToMove : Color
  castle : CastleRights
  epTarget : Option Square
deriving DecidableEq, Repr

/-- The occupant of a square (colour and piece), `none` when empty. -/
def pieceColorAt (b : Board) (sq : Square) : Option (Color × Piece) :=
  b.squares.getD (sq.rank * 8 + sq.file) none

/-- `Board::piece_on`: the piece kind on a square. -/
def pieceOn (b : Board) (sq : Square) : Option Piece :=
  (pieceColorAt b sq).map Prod.snd

/-- `Board::color_on`: the colour of the piece on a square. -/
def colorOn (b : Board) (sq : Square) : Option Color :=
  (pieceColorAt b sq).map Prod.fst

/-- The back-rank piece order. -/
def backRank : List Piece :=
  [.rook, .knight, .bishop, .queen, .king, .bishop, .knight, .rook]

/-- The standard initial position (`Game::new().current_position()`). -/
def initialBoard : Board :=
  { squares :=
      (backRank.map (fun p => some (Color.white, p)))
        ++ List.replicate 8 (some (Color.white, Piece.pawn))
        ++ List.replicate 32 none
        ++ List.replicate 8 (some (Color.black, Piece.pawn))
        ++ (backRank.map (fun p => some (Color.black, p)))
    sideToMove := .white
    castle := { wk := true, wq := true, bk := true, bq := true }
    epTarget := none }

/-- Shift a square by a file/rank offset; `none` when off the board. -/
def shiftSq (sq : Square) (df dr : Int) : Option Square :=
  let f : Int := (sq.file : Int) + df
  let r : Int := (sq.rank : Int) + dr
  if 0 ≤ f ∧ f < 8 ∧ 0 ≤ r ∧ r < 8 then some ⟨f.toNat, r.toNat⟩ else none

/-- The eight knight jump offsets. -/
def knightJumps : List (Int × Int) :=
  [(1, 2), (2, 1), (2, -1), (1, -2), (-1, -2), (-2, -1), (-2, 1), (-1, 2)]

/-- The eight king step offsets. -/
def kingSteps : List (Int × Int) :=
  [(1, 0), (1, 1), (0, 1), (-1, 1), (-1, 0), (-1, -1), (0, -1), (1, -1)]

/-- Rook ray directions. -/
def rookDirs : List (Int × Int) := [(1, 0), (-1, 0), (0, 1), (0, -1)]

/-- Bishop ray directions. -/
def bishopDirs : List (Int × Int) := [(1, 1), (1, -1), (-1, 1), (-1, -1)]

/-- Queen ray directions. -/
def queenDirs : List (Int × Int) := rookDirs ++ bishopDirs

/-- Squares reachable along one ray: empty squares up to and including the
first occupied square.  Fuel-bounded walk (7 steps suffice on an 8x8 board). -/
def rayTargets (b : Board) (sq : Square) (d : Int × Int) : Nat → List Square
  | 0 => []
  | n + 1 =>
    match shiftSq sq d.1 d.2 with
    | none => []
    | some t =>
      match pieceColorAt b t with
      | none => t :: rayTargets b t d n
      | some _ => [t]

/-- All on-board targets of a leaper (knight or king) from a square. -/
def leaperTargets (sq : Square) (ds : List (Int × Int)) : List Square :=
  ds.filterMap (fun d => shiftSq sq d.1 d.2)

/-- All targets of a slider from a square along the given directions. -/
def sliderTargets (b : Board) (sq : Square) (ds : List (Int × Int)) : List Square :=
  ds.flatMap (fun d => rayTargets b sq d 8)

/-- Forward direction of a pawn of the given colour. -/
def pawnDir (c : Color) : Int :=
  match c with
  | .white => 1
  | .black => -1

/-- The rank a pawn of the given colour promotes on. -/
def promoRank (c : Color) : Nat :=
  match c with
  | .white => 7
  | .black => 0

/-- The rank a pawn of the given colour starts on. -/
def pawnStartRank (c : Color) : Nat :=
  match c with
  | .white => 1
  | .black => 6

/-- Whether a square is not occupied by a piece of colour `c`. -/
def notOwn (b : Board) (c : Color) (t : Square) : Bool :=
  match pieceColorAt b t with
  | some (c2, _) => decide (c2 ≠ c)
  | none => true

/-- Destination squares of a pawn of colour `c` on `sq`: single and double
pushes onto empty squares, and diagonal captures of enemy pieces or of the
en-passant target. -/
def pawnMoveTargets (b : Board) (c : Color) (sq : Square) : List Square :=
  let d := pawnDir c
  let pushes :=
    match shiftSq sq 0 d with
    | none => []
    | some t1 =>
      if pieceColorAt b t1 = none then
        t1 ::
          (if sq.rank = pawnStartRank c then
            match shiftSq sq 0 (2 * d) with
            | some t2 => if pieceColorAt b t2 = none then [t2] else []
            | none => []
          else [])
      else []
  let caps := [(-1 : Int), 1].filterMap (fun df =>
    match shiftSq sq df d with
    | none => none
    | some t =>
      match pieceColorAt b t with
      | some (c2, _) => if c2 = c then none else some t
      | none => if b.epTarget = some t then some t else none)
  pushes ++ caps

/-- A pawn move to `t` expands into four promotion moves on the last rank,
and into one ordinary move otherwise. -/
def expandPromotions (c : Color) (src t : Square) : List ChessMove :=
  if t.rank = promoRank c then
    [Piece.queen, Piece.rook, Piece.bishop, Piece.knight].map
      (fun p => ⟨src, t, some p⟩)
  else [⟨src, t, none⟩]

/-- All 64 board squares. -/
def allSquares : List Square :=
  (List.range 8).flatMap (fun r => (List.range 8).map (fun f => ⟨f, r⟩))

/-- Destination squares of a non-pawn piece `p` of colour `c` on `sq`. -/
def pieceTargets (b : Board) (c : Color) (p : Piece) (sq : Square) : List Square :=
  match p with
  | .pawn => pawnMoveTargets b c sq
  | .knight => (leaperTargets sq knightJumps).filter (notOwn b c)
  | .king => (leaperTargets sq kingSteps).filter (notOwn b c)
  | .bishop => (sliderTargets b sq bishopDirs).filter (notOwn b c)
  | .rook => (sliderTargets b sq rookDirs).filter (notOwn b c)
  | .queen => (sliderTargets b sq queenDirs).filter (notOwn b c)

/-- All pseudo-legal moves (castling apart) of the side to move. -/
def pseudoMoves (b : Board) : List ChessMove :=
  allSquares.flatMap (fun sq =>
    match pieceColorAt b sq with
    | some (c, p) =>
      if c = b.sideToMove then
        if p = Piece.pawn then
          (pawnMoveTargets b c sq).flatMap (expandPromotions c sq)
        else (pieceTargets b c p sq).map (fun t => ⟨sq, t, none⟩)
      else []
    | none => [])

/-- The first piece met walking from `sq` along direction `d` (fuel-bounded). -/
def rayFirstPiece (b : Board) (sq : Square) (d : Int × Int) : Nat → Option (Color × Piece)
  | 0 => none
  | n + 1 =>
    match shiftSq sq d.1 d.2 with
    | none => none
    | some t =>
      match pieceColorAt b t with
      | some cp => some cp
      | none => rayFirstPiece b t d n

/-- Whether any piece of colour `c` attacks the square `tgt`: a pawn one
diagonal step behind it, a knight a jump away, a king a step away, or the
first piece along a rook or bishop ray being a matching slider of `c`. -/
def attacked (b : Board) (c : Color) (tgt : Square) : Bool :=
  let pawnHit := [(-1 : Int), 1].any (fun df =>
    match shiftSq tgt df (-(pawnDir c)) with
    | some sq => pieceColorAt b sq == some (c, Piece.pawn)
    | none => false)
  let knightHit := knightJumps.any (fun d =>
    match shiftSq tgt d.1 d.2 with
    | some sq => pieceColorAt b sq == some (c, Piece.knight)
    | none => false)
  let kingHit := kingSteps.any (fun d =>
    match shiftSq tgt d.1 d.2 with
    | some sq => pieceColorAt b sq == some (c, Piece.king)
    | none => false)
  let rookHit := rookDirs.any (fun d =>
    match rayFirstPiece b tgt d 8 with
    | some (c2, p) => c2 == c && (p == Piece.rook || p == Piece.queen)
    | none => false)
  let bishopHit := bishopDirs.any (fun d =>
    match rayFirstPiece b tgt d 8 with
    | some (c2, p) => c2 == c && (p == Piece.bishop || p == Piece.queen)
    | none => false)
  pawnHit || knightHit || kingHit || rookHit || bishopHit

/-- The square of the king of colour `c` (defaults to a1 on a corrupt board
with no king; never the case on positions reached from `initialBoard`). -/
def kingSquare (b : Board) (c : Color) : Square :=
  (allSquares.find? (fun sq =>
    decide (pieceColorAt b sq = some (c, Piece.king)))).getD ⟨0, 0⟩

/-- Whether the king of colour `c` is attacked by the other side. -/
def inCheck (b : Board) (c : Color) : Bool :=
  attacked b c.opp (kingSquare b c)

/-- Clear one square of the placement list. -/
def clearAt (sqs : List (Option (Color × Piece))) (sq : Square) :
    List (Option (Color × Piece)) :=
  sqs.set (sq.rank * 8 + sq.file) none

/-- Put a piece on one square of the placement list. -/
def setAt (sqs : List (Option (Color × Piece))) (sq : Square)
    (v : Color × Piece) : List (Option (Color × Piece)) :=
  sqs.set (sq.rank * 8 + sq.file) (some v)

/-- `Board::make_move_new`: apply a move to a position, producing the new
position.  Handles captures, en passant, promotion, the castling rook jump,
castling-right updates and the en-passant target; flips the side to move.
A move from an empty square leaves the board unchanged (never the case for
moves of `legalMoves`). -/
def applyMove (b : Board) (m : ChessMove) : Board :=
  match pieceColorAt b m.source with
  | none => b
  | some (c, p) =>
    let sqs := clearAt b.squares m.source
    let sqs :=
      if p = Piece.pawn ∧ b.epTarget = some m.dest ∧ m.source.file ≠ m.dest.file
          ∧ pieceColorAt b m.dest = none then
        clearAt sqs ⟨m.dest.file, m.source.rank⟩
      else sqs
    let placed : Piece :=
      match m.promotion with
      | some pr => pr
      | none => p
    let sqs := setAt sqs m.dest (c, placed)
    let sqs :=
      if p = Piece.king ∧ m.source.file = 4 ∧ m.dest.file = 6 then
        setAt (clearAt sqs ⟨7, m.source.rank⟩) ⟨5, m.source.rank⟩ (c, Piece.rook)
      else sqs
    let sqs :=
      if p = Piece.king ∧ m.source.file = 4 ∧ m.dest.file = 2 then
        setAt (clearAt sqs ⟨0, m.source.rank⟩) ⟨3, m.source.rank⟩ (c, Piece.rook)
      else sqs
    let cr := b.castle
    let cr :=
      if p = Piece.king then
        match c with
        | .white => { cr with wk := false, wq := false }
        | .black => { cr with bk := false, bq := false }
      else cr
    let cr := if m.source = ⟨7, 0⟩ ∨ m.dest = ⟨7, 0⟩ then { cr with wk := false } else cr
    let cr := if m.source = ⟨0, 0⟩ ∨ m.dest = ⟨0, 0⟩ then { cr with wq := false } else cr
    let cr := if m.source = ⟨7, 7⟩ ∨ m.dest = ⟨7, 7⟩ then { cr with bk := false } else cr
    let cr := if m.source = ⟨0, 7⟩ ∨ m.dest = ⟨0, 7⟩ then { cr with bq := false } else cr
    let ep :=
      if p = Piece.pawn ∧ (m.source.rank + 2 = m.dest.rank ∨ m.dest.rank + 2 = m.source.rank)
      then some ⟨m.source.file, (m.source.rank + m.dest.rank) / 2⟩
      else none
    { squares := sqs, sideToMove := b.sideToMove.opp, castle := cr, epTarget := ep }

/-- Castling moves of the side to move: rights intact, king and rook on
their home squares, the squares between empty, and the king neither in
check nor crossing an attacked square. -/
def castleMoves (b : Board) : List ChessMove :=
  let c := b.sideToMove
  let r : Nat :=
    match c with
    | .white => 0
    | .black => 7
  let kOK : Bool :=
    match c with
    | .white => b.castle.wk
    | .black => b.castle.bk
  let qOK : Bool :=
    match c with
    | .white => b.castle.wq
    | .black => b.castle.bq
  let home : Prop :=
    pieceColorAt b ⟨4, r⟩ = some (c, Piece.king) ∧ attacked b c.opp ⟨4, r⟩ = false
  let ks : List ChessMove :=
    if kOK = true ∧ home ∧ pieceColorAt b ⟨5, r⟩ = none ∧ pieceColorAt b ⟨6, r⟩ = none
        ∧ pieceColorAt b ⟨7, r⟩ = some (c, Piece.rook)
        ∧ attacked b c.opp ⟨5, r⟩ = false ∧ attacked b c.opp ⟨6, r⟩ = false then
      [⟨⟨4, r⟩, ⟨6, r⟩, none⟩]
    else []
  let qs : List ChessMove :=
    if qOK = true ∧ home ∧ pieceColorAt b ⟨1, r⟩ = none ∧ pieceColorAt b ⟨2, r⟩ = none
        ∧ pieceColorAt b ⟨3, r⟩ = none ∧ pieceColorAt b ⟨0, r⟩ = some (c, Piece.rook)
        ∧ attacked b c.opp ⟨3, r⟩ = false ∧ attacked b c.opp ⟨2, r⟩ = false then
      [⟨⟨4, r⟩, ⟨2, r⟩, none⟩]
    else []
  ks ++ qs

/-- Modelled from the spec: the legal-move Oracle (`MoveGen::new_legal` of
the chess crate, collected to a list): pseudo-legal and castling moves whose
application does not leave the mover's own king in check. -/
def legalMoves (b : Board) : List ChessMove :=
  (pseudoMoves b ++ castleMoves b).filter
    (fun m => ! inCheck (applyMove b m) b.sideToMove)

/-- `Game::make_move`: applies the move when it is legal in the current
position and does nothing otherwise. -/
def gameMakeMove (b : Board) (m : ChessMove) : Board :=
  if m ∈ legalMoves b then applyMove b m else b

/-- The file letter of a square (a..h), the first character of its display. -/
def fileChar (sq : Square) : Char := Char.ofNat (97 + sq.file)

/-- The rank digit of a square (1..8), the second character of its display. -/
def rankChar (sq : Square) : Char := Char.ofNat (49 + sq.rank)

/-- `Square` display, e.g. e2. -/
def squareToString (sq : Square) : String :=
  String.mk [fileChar sq, rankChar sq]

/-- `ChessMove` display: source square, destination square and the
promotion piece letter when present, e.g. e2e4 or e7e8q. -/
def moveToString (m : ChessMove) : String :=
  squareToString m.source ++ squareToString m.dest ++
    (match m.promotion with
     | some Piece.queen => "q"
     | some Piece.rook => "r"
     | some Piece.bishop => "b"
     | some Piece.knight => "n"
     | some Piece.pawn => "p"
     | some Piece.king => "k"
     | none => "")

/-- `Square::from_str` on a two-character token: file a..h then rank 1..8. -/
def squareFromChars (cf cr : Char) : Option Square :=
  if 97 ≤ cf.toNat ∧ cf.toNat ≤ 104 ∧ 49 ≤ cr.toNat ∧ cr.toNat ≤ 56 then
    some ⟨cf.toNat - 97, cr.toNat - 49⟩
  else none

/-- Translated from `parse_and_make_move` (src/chess_game.rs, lines
139-176), the parsing stage: a four-character string is from-square plus
to-square; a five-character string additionally carries a promotion letter
restricted to q, r, b, n; anything else is a format error. -/
def parseUci (input : String) : Except String ChessMove :=
  match input.data with
  | [a, b, c, d] =>
    match squareFromChars a b with
    | none => .error ("Invalid from square: " ++ String.mk [a, b])
    | some fromSq =>
      match squareFromChars c d with
      | none => .error ("Invalid to square: " ++ String.mk [c, d])
      | some toSq => .ok ⟨fromSq, toSq, none⟩
  | [a, b, c, d, e] =>
    match squareFromChars a b with
    | none => .error ("Invalid from square: " ++ String.mk [a, b])
    | some fromSq =>
      match squareFromChars c d with
      | none => .error ("Invalid to square: " ++ String.mk [c, d])
      | some toSq =>
        if e = 'q' then .ok ⟨fromSq, toSq, some Piece.queen⟩
        else if e = 'r' then .ok ⟨fromSq, toSq, some Piece.rook⟩
        else if e = 'b' then .ok ⟨fromSq, toSq, some Piece.bishop⟩
        else if e = 'n' then .ok ⟨fromSq, toSq, some Piece.knight⟩
        else .error ("Invalid promotion piece: " ++ String.singleton e)
  | _ => .error "Invalid move format. Use format like e2e4 or e7e8q for promotions"

/-- Translated from `describe_move` (src/chess_game.rs, lines 297-365):
the human-readable description of a move against the pre-move board. -/
def describeMove (m : ChessMove) (board : Board) : String :=
  let fromSq := m.source
  let toSq := m.dest
  let piece := pieceOn board fromSq
  let pieceColor := colorOn board fromSq
  let pieceFen : String :=
    match piece, pieceColor with
    | some Piece.king, some Color.white => "K"
    | some Piece.queen, some Color.white => "Q"
    | some Piece.rook, some Color.white => "R"
    | some Piece.bishop, some Color.white => "B"
    | some Piece.knight, some Color.white => "N"
    | some Piece.pawn, some Color.white => "P"
    | some Piece.king, some Color.black => "k"
    | some Piece.queen, some Color.black => "q"
    | some Piece.rook, some Color.black => "r"
    | some Piece.bishop, some Color.black => "b"
    | some Piece.knight, some Color.black => "n"
    | some Piece.pawn, some Color.black => "p"
    | _, _ => "?"
  let isCapture := (pieceOn board toSq).isSome
  let capturedPiece : String :=
    if isCapture then
      match pieceOn board toSq with
      | some Piece.queen => " captures Queen"
      | some Piece.rook => " captures Rook"
      | some Piece.bishop => " captures Bishop"
      | some Piece.knight => " captures Knight"
      | some Piece.pawn => " captures Pawn"
      | _ => " captures piece"
    else ""
  let promotion : String :=
    match m.promotion with
    | some Piece.queen => " promotes to Queen"
    | some Piece.rook => " promotes to Rook"
    | some Piece.bishop => " promotes to Bishop"
    | some Piece.knight => " promotes to Knight"
    | _ => ""
  let kingStart : Square := if pieceColor = some Color.white then ⟨4, 0⟩ else ⟨4, 7⟩
  if piece = some Piece.king ∧ fromSq = kingStart ∧ (toSq = ⟨6, 0⟩ ∨ toSq = ⟨6, 7⟩) then
    pieceFen ++ " castles kingside"
  else if piece = some Piece.king ∧ fromSq = kingStart ∧ (toSq = ⟨2, 0⟩ ∨ toSq = ⟨2, 7⟩) then
    pieceFen ++ " castles queenside"
  else
    pieceFen ++ " " ++ squareToString fromSq ++ "->" ++ squareToString toSq
      ++ capturedPiece ++ promotion

/-- `Board::checkers().popcnt() > 0`: whether the side to move is in check. -/
def boardInCheck (b : Board) : Bool := inCheck b b.sideToMove

/-- Translated from `to_algebraic_notation` (src/chess_game.rs, lines
367-488): replay the first `idx` history moves from the initial position,
then render `m` in standard algebraic notation against the replayed board:
castling as 0-0 / 0-0-0, piece letter (pawns excepted, save the file on a
pawn capture), disambiguation by file then rank for non-pawn non-king
pieces, x on capture, destination, promotion suffix, and a trailing + or #
from the post-move position. -/
def toAlgebraicNotation (history : List (ChessMove × String × String))
    (m : ChessMove) (idx : Nat) : String :=
  let board := ((history.take idx).map (fun e => e.1)).foldl gameMakeMove initialBoard
  let fromSq := m.source
  let toSq := m.dest
  let piece := pieceOn board fromSq
  let pieceColor := colorOn board fromSq
  let isCapture := (pieceOn board toSq).isSome
  let kingStart : Square := if pieceColor = some Color.white then ⟨4, 0⟩ else ⟨4, 7⟩
  if piece = some Piece.king ∧ fromSq = kingStart ∧ (toSq = ⟨6, 0⟩ ∨ toSq = ⟨6, 7⟩) then
    "0-0"
  else if piece = some Piece.king ∧ fromSq = kingStart ∧ (toSq = ⟨2, 0⟩ ∨ toSq = ⟨2, 7⟩) then
    "0-0-0"
  else
    match piece with
    | none => moveToString m
    | some p =>
      let pieceStr : String :=
        match p with
        | .king => "K"
        | .queen => "Q"
        | .rook => "R"
        | .bishop => "B"
        | .knight => "N"
        | .pawn => if isCapture then String.singleton (fileChar fromSq) else ""
      let disambig : String :=
        if p ≠ Piece.pawn ∧ p ≠ Piece.king then
          let samePieceMoves := (legalMoves board).filter (fun m2 =>
            decide (m2.dest = toSq) && decide (pieceOn board m2.source = some p)
              && decide (m2.source ≠ fromSq))
          if samePieceMoves ≠ [] then
            if samePieceMoves.any (fun m2 => fileChar m2.source == fileChar fromSq) then
              String.singleton (rankChar fromSq)
            else
              String.singleton (fileChar fromSq)
          else ""
        else ""
      let captureStr : String := if isCapture then "x" else ""
      let promoStr : String :=
        match m.promotion with
        | some Piece.queen => "=Q"
        | some Piece.rook => "=R"
        | some Piece.bishop => "=B"
        | some Piece.knight => "=N"
        | some Piece.king => "="
        | some Piece.pawn => "="
        | none => ""
      let afterBoard := applyMove board m
      let checkStr : String :=
        if boardInCheck afterBoard then
          if legalMoves afterBoard = [] then "#" else "+"
        else ""
      pieceStr ++ disambig ++ captureStr ++ squareToString toSq ++ promoStr ++ checkStr

/-- Translated from the `ChessGame` struct (src/chess_game.rs, lines 7-14):
the session state.  The engine handle is external and carries no session
state, so it is omitted. -/
structure ChessGame where
  game : Board
  playerColor : Color
  moveHistory : List (ChessMove × String × String)
  gameStates : List Board
  currentStateIndex : Nat
deriving DecidableEq, Repr

/-- The mover-tag string of a colour. -/
def colorStr (c : Color) : String :=
  match c with
  | .white => "White"
  | .black => "Black"

/-- Translated from `ChessGame::new` (src/chess_game.rs, lines 39-46): the
fresh session for a chosen player colour: initial position, empty history,
a one-snapshot log, cursor 0. -/
def startGame (c : Color) : ChessGame :=
  { game := initialBoard
    playerColor := c
    moveHistory := []
    gameStates := [initialBoard]
    currentStateIndex := 0 }

/-- Translated from `is_in_computer_turn` (src/chess_game.rs, lines
612-614): whether the side to move of the current position differs from
the player's colour. -/
def isInComputerTurn (s : ChessGame) : Bool :=
  decide (s.game.sideToMove ≠ s.playerColor)

/-- Translated from `save_game_state` (src/chess_game.rs, lines 540-549):
truncate the snapshot log just past the cursor when the cursor is not at
the end, push the current position, and point the cursor at it. -/
def saveGameState (s : ChessGame) : ChessGame :=
  let states :=
    if s.currentStateIndex < s.gameStates.length - 1 then
      s.gameStates.take (s.currentStateIndex + 1)
    else s.gameStates
  let states := states ++ [s.game]
  { s with gameStates := states, currentStateIndex := states.length - 1 }

/-- Translated from `parse_and_make_move` (src/chess_game.rs, lines
139-209): parse the input, reject a move outside the legal-move set,
otherwise describe it, apply it, save the snapshot and append the history
entry.  The second component is the session afterwards (unchanged on any
error). -/
def parseAndMakeMove (s : ChessGame) (input : String) :
    Except String ChessMove × ChessGame :=
  match parseUci input with
  | .error e => (.error e, s)
  | .ok chessMove =>
    if chessMove ∈ legalMoves s.game then
      let moveDescription := describeMove chessMove s.game
      let s1 := { s with game := gameMakeMove s.game chessMove }
      let s2 := saveGameState s1
      let playerColorStr := colorStr s.playerColor
      let detailed := playerColorStr ++ " (You): " ++ moveDescription
      (.ok chessMove,
        { s2 with moveHistory :=
            s2.moveHistory ++ [(chessMove, playerColorStr, detailed)] })
    else (.error "Move is not legal in current position", s)

/-- Translated from `make_computer_move` (src/chess_game.rs, lines
211-246) with the engine's reply `m` passed in: describe the move, append
its history entry, apply it (`Game::make_move` ignores an illegal reply)
and save the snapshot. -/
def makeComputerMove (m : ChessMove) (s : ChessGame) : ChessGame :=
  let moveDescription := describeMove m s.game
  let computerColorStr := colorStr s.playerColor.opp
  let detailed := computerColorStr ++ " (Computer): " ++ moveDescription
  let s1 := { s with moveHistory :=
      s.moveHistory ++ [(m, computerColorStr, detailed)] }
  let s2 := { s1 with game := gameMakeMove s1.game m }
  saveGameState s2

/-- One iteration of the undo loop body (src/chess_game.rs, lines 567-575):
step the cursor back when it is positive and pop the history tail when the
history is non-empty. -/
def undoIter (s : ChessGame) : ChessGame :=
  if 0 < s.currentStateIndex then
    if s.moveHistory ≠ [] then
      { s with currentStateIndex := s.currentStateIndex - 1,
               moveHistory := s.moveHistory.dropLast }
    else { s with currentStateIndex := s.currentStateIndex - 1 }
  else s

/-- The undo loop run `n` times. -/
def undoLoop : Nat → ChessGame → ChessGame
  | 0, s => s
  | n + 1, s => undoLoop n (undoIter s)

/-- Translated from `undo_move` (src/chess_game.rs, lines 551-582): refuse
at cursor 0 or with an empty history; otherwise undo two plies when the
side to move is the computer's and one when it is the player's, refusing
when the cursor would cross the start, and reload the position from the
snapshot under the cursor.  The indexing of `game_states` is modelled
total by `getD` (the cursor stays within the log on all reachable
sessions). -/
def undoMove (s : ChessGame) : Bool × ChessGame :=
  if s.currentStateIndex = 0 then (false, s)
  else if s.moveHistory ≠ [] then
    let movesToUndo := if isInComputerTurn s then 2 else 1
    if s.currentStateIndex < movesToUndo then (false, s)
    else
      let s1 := undoLoop movesToUndo s
      (true, { s1 with game := s1.gameStates.getD s1.currentStateIndex s1.game })
  else (false, s)

/-- One iteration of the redo loop body (src/chess_game.rs, lines 599-605):
step the cursor forward while it is short of the last snapshot. -/
def redoIter (s : ChessGame) : ChessGame :=
  if s.currentStateIndex < s.gameStates.length - 1 then
    { s with currentStateIndex := s.currentStateIndex + 1 }
  else s

/-- The redo loop run `n` times. -/
def redoLoop : Nat → ChessGame → ChessGame
  | 0, s => s
  | n + 1, s => redoLoop n (redoIter s)

/-- Translated from `redo_move` (src/chess_game.rs, lines 584-610): refuse
at the last snapshot; otherwise redo two steps when two snapshots lie ahead
and the side to move is the player's, one step otherwise, and reload the
position from the snapshot under the cursor. -/
def redoMove (s : ChessGame) : Bool × ChessGame :=
  if s.gameStates.length - 1 ≤ s.currentStateIndex then (false, s)
  else
    let movesToRedo :=
      if s.currentStateIndex + 2 < s.gameStates.length ∧ ¬ isInComputerTurn s then 2
      else 1
    let s1 := redoLoop movesToRedo s
    (true, { s1 with game := s1.gameStates.getD s1.currentStateIndex s1.game })

/-- The sessions the program can reach: a fresh session, a player move
committed through `parse_and_make_move` (a failed parse or an illegal move
leaves the session unchanged, so every outcome is covered), a legal engine
reply committed through `make_computer_move`, an undo, or a redo. -/
inductive Reachable : ChessGame → Prop where
  | start (c : Color) : Reachable (startGame c)
  | player (s : ChessGame) (input : String) :
      Reachable s → Reachable (parseAndMakeMove s input).2
  | engine (s : ChessGame) (m : ChessMove) :
      Reachable s → m ∈ legalMoves s.game → Reachable (makeComputerMove m s)
  | undo (s : ChessGame) : Reachable s → Reachable (undoMove s).2
  | redo (s : ChessGame) : Reachable s → Reachable (redoMove s).2

/-- Rust `str::starts_with` on a string: whether its characters begin
with those of the pattern (structurally recursive so that concrete
instances evaluate). -/
def strStartsWith (s pat : String) : Bool :=
  go s.data pat.data
where
  /-- Whether the second character list is an initial segment of the first. -/
  go : List Char → List Char → Bool
    | _, [] => true
    | [], _ :: _ => false
    | a :: as, b :: bs => a == b && go as bs

/-- Rust `str::split_whitespace` on the character list of a line: maximal
runs of non-whitespace characters, empty tokens dropped. -/
def splitWsAux : List Char → List Char → List String
  | [], cur => if cur = [] then [] else [String.mk cur.reverse]
  | ch :: rest, cur =>
    if ch.isWhitespace then
      if cur = [] then splitWsAux rest []
      else String.mk cur.reverse :: splitWsAux rest []
    else splitWsAux rest (ch :: cur)

/-- Rust `str::split_whitespace`, collected to a list. -/
def splitWhitespace (s : String) : List String := splitWsAux s.data []

/-- `ChessMove::from_str` of the chess crate on the engine's move token:
two squares and an optional promotion letter. -/
def chessMoveFromStr (s : String) : Except String ChessMove :=
  match s.data with
  | [a, b, c, d] =>
    match squareFromChars a b, squareFromChars c d with
    | some fromSq, some toSq => .ok ⟨fromSq, toSq, none⟩
    | _, _ => .error "invalid move text"
  | [a, b, c, d, e] =>
    match squareFromChars a b, squareFromChars c d with
    | some fromSq, some toSq =>
      if e = 'q' then .ok ⟨fromSq, toSq, some Piece.queen⟩
      else if e = 'r' then .ok ⟨fromSq, toSq, some Piece.rook⟩
      else if e = 'b' then .ok ⟨fromSq, toSq, some Piece.bishop⟩
      else if e = 'n' then .ok ⟨fromSq, toSq, some Piece.knight⟩
      else .error "invalid move text"
    | _, _ => .error "invalid move text"
  | _ => .error "invalid move text"

/-- Translated from the read loop of `get_best_move` (src/stockfish.rs,
lines 56-69), with the subprocess's remaining output modelled as the list
of lines before end of stream and one unit of fuel per loop iteration.  At
end of stream `read_line` yields zero bytes, the cleared line stays empty,
and the loop body runs again on the same empty stream; a line starting
with the best-move keyword returns its second whitespace token parsed as a
move (`some (.ok _)` or `some (.error _)`), and any other line is skipped.
`none` means the loop is still running when the fuel is spent; the loop
terminates on a stream exactly when some fuel returns `some`. -/
def getBestMoveLines : Nat → List String → Option (Except String ChessMove)
  | 0, _ => none
  | fuel + 1, lines =>
    match lines with
    | [] => getBestMoveLines fuel []
    | l :: rest =>
      if strStartsWith l "bestmove" then
        match splitWhitespace l with
        | _ :: moveStr :: _ =>
          some ((chessMoveFromStr moveStr).mapError
            (fun _ => "Invalid move from Stockfish: " ++ moveStr))
        | _ => getBestMoveLines fuel rest
      else getBestMoveLines fuel rest

end Minichess

deriving instance DecidableEq for Except

namespace Minichess

/-! Concrete session states used by the theorems below: a player move
e2e4, an engine reply e7e5, a player move g1f3, an engine reply b8c6,
followed by various undos and redos.  Each is reachable by the program
(the interactive loop accepts undo and redo at any prompt, also right
after a preceding undo has already been taken). -/

/-- The move e2e4. -/
def mvE2E4 : ChessMove := ⟨⟨4, 1⟩, ⟨4, 3⟩, none⟩

/-- The move e7e5. -/
def mvE7E5 : ChessMove := ⟨⟨4, 6⟩, ⟨4, 4⟩, none⟩

/-- The move g1f3. -/
def mvG1F3 : ChessMove := ⟨⟨6, 0⟩, ⟨5, 2⟩, none⟩

/-- The move e1g1. -/
def mvE1G1 : ChessMove := ⟨⟨4, 0⟩, ⟨6, 0⟩, none⟩

/-- The move b8c6. -/
def mvB8C6 : ChessMove := ⟨⟨1, 7⟩, ⟨2, 5⟩, none⟩

/-- The move b1d2. -/
def mvB1D2 : ChessMove := ⟨⟨1, 0⟩, ⟨3, 1⟩, none⟩

/-- The session (human plays White) after the human commits e2e4. -/
def sessionAfterE4 : ChessGame := (parseAndMakeMove (startGame .white) "e2e4").2

/-- The session after e2e4 (human) and the engine reply e7e5. -/
def sessionAfterE4E5 : ChessGame := makeComputerMove mvE7E5 sessionAfterE4

/-- The session after e2e4, e7e5 and one undo taken at the human's turn. -/
def sessionUndoOnce : ChessGame := (undoMove sessionAfterE4E5).2

/-- The session after e2e4, e7e5, g1f3 (human) and the reply b8c6. -/
def sessionFourPlies : ChessGame :=
  makeComputerMove mvB8C6 (parseAndMakeMove sessionAfterE4E5 "g1f3").2

/-- `sessionFourPlies` after one undo: cursor 3, three history entries,
and the engine's side to move, so the next undo takes the two-ply branch. -/
def sessionFourPliesUndo : ChessGame := (undoMove sessionFourPlies).2

/-- `sessionFourPliesUndo` after a second undo (two plies), two redos
(which restore the cursor but no history entries) and a third undo: the
history is empty while the cursor sits at 3. -/
def sessionHistoryOrphan : ChessGame :=
  (undoMove (redoMove (redoMove (undoMove sessionFourPliesUndo).2).2).2).2

/-- The history entry `parse_and_make_move` appends for a move. -/
def playerEntry (s : ChessGame) (m : ChessMove) : ChessMove × String × String :=
  (m, colorStr s.playerColor,
    colorStr s.playerColor ++ " (You): " ++ describeMove m s.game)

/-- The history entry `make_computer_move` appends for a move. -/
def computerEntry (s : ChessGame) (m : ChessMove) : ChessMove × String × String :=
  (m, colorStr s.playerColor.opp,
    colorStr s.playerColor.opp ++ " (Computer): " ++ describeMove m s.game)

/-- The algebraic letter of a piece. -/
def pieceChar (p : Piece) : Char :=
  match p with
  | .queen => 'Q'
  | .rook => 'R'
  | .bishop => 'B'
  | .knight => 'N'
  | .king => 'K'
  | .pawn => 'P'

/-- The like-piece moves the renderer's disambiguation filter collects:
legal moves to the same destination by a piece of the same kind from a
different origin. -/
def sameDestMoves (board : Board) (m : ChessMove) (p : Piece) : List ChessMove :=
  (legalMoves board).filter (fun m2 =>
    decide (m2.dest = m.dest) && decide (pieceOn board m2.source = some p)
      && decide (m2.source ≠ m.source))

/-- The history 1. d2d4 a7a6 2. g1f3 a6a5, after which b1d2 needs
disambiguation from the knight on f3. -/
def histNbd2 : List (ChessMove × String × String) :=
  [(⟨⟨3, 1⟩, ⟨3, 3⟩, none⟩, "", ""), (⟨⟨0, 6⟩, ⟨0, 5⟩, none⟩, "", ""),
    (mvG1F3, "", ""), (⟨⟨0, 5⟩, ⟨0, 4⟩, none⟩, "", "")]

/-- The board after replaying `histNbd2`. -/
def nbd2Board : Board :=
  ((histNbd2.take 4).map (fun e => e.1)).foldl gameMakeMove initialBoard

/-- The state bookkeeping invariant of a session: the history never
outgrows the cursor, the cursor stays inside the snapshot log, the live
position is the snapshot under the cursor, and consecutive snapshots have
alternating sides to move. -/
structure Inv (s : ChessGame) : Prop where
  histLe : s.moveHistory.length ≤ s.currentStateIndex
  idxLt : s.currentStateIndex < s.gameStates.length
  gameEq : s.gameStates[s.currentStateIndex]? = some s.game
  alt : ∀ i a b, s.gameStates[i]? = some a → s.gameStates[i + 1]? = some b →
    b.sideToMove = a.sideToMove.opp

/-- `opp` is an involution. -/
theorem Color.opp_opp (c : Color) : c.opp.opp = c := by
  cases c <;> rfl

/-- No colour is its own opposite. -/
theorem Color.opp_ne (c : Color) : c.opp ≠ c := by
  cases c <;> simp [Color.opp]

/-- An in-range `getElem?` agrees with `getD` at any default. -/
theorem getElem?_eq_some_getD {α : Type} (l : List α) (i : Nat) (d : α)
    (h : i < l.length) : l[i]? = some (l.getD i d) := by
  simp [List.getD, List.getElem?_eq_getElem h]

/-- Every pseudo-legal move starts from an occupied square. -/
theorem mem_pseudoMoves_occupied {b : Board} {m : ChessMove}
    (h : m ∈ pseudoMoves b) : ∃ cp, pieceColorAt b m.source = some cp := by
  unfold pseudoMoves at h
  rw [List.mem_flatMap] at h
  obtain ⟨sq, -, hm⟩ := h
  rcases hcp : pieceColorAt b sq with - | ⟨c, p⟩ <;> simp only [hcp] at hm
  · simp at hm
  · by_cases hc : c = b.sideToMove
    · rw [if_pos hc] at hm
      by_cases hp : p = Piece.pawn
      · rw [if_pos hp] at hm
        rw [List.mem_flatMap] at hm
        obtain ⟨t, -, hm2⟩ := hm
        unfold expandPromotions at hm2
        split at hm2
        · rw [List.mem_map] at hm2
          obtain ⟨pp, -, rfl⟩ := hm2
          exact ⟨_, hcp⟩
        · rw [List.mem_singleton] at hm2
          subst hm2
          exact ⟨_, hcp⟩
      · rw [if_neg hp, List.mem_map] at hm
        obtain ⟨t, -, rfl⟩ := hm
        exact ⟨_, hcp⟩
    · rw [if_neg hc] at hm
      simp at hm

/-- Every castling move starts from the occupied king home square. -/
theorem mem_castleMoves_occupied {b : Board} {m : ChessMove}
    (h : m ∈ castleMoves b) : ∃ cp, pieceColorAt b m.source = some cp := by
  unfold castleMoves at h
  rw [List.mem_append] at h
  rcases h with h | h <;> split at h <;>
    first
    | (rw [List.mem_singleton] at h
       subst h
       next hcond => exact ⟨_, hcond.2.1.1⟩)
    | simp at h

/-- Every legal move starts from an occupied square. -/
theorem mem_legalMoves_occupied {b : Board} {m : ChessMove}
    (h : m ∈ legalMoves b) : ∃ cp, pieceColorAt b m.source = some cp := by
  unfold legalMoves at h
  rw [List.mem_filter, List.mem_append] at h
  rcases h.1 with h1 | h1
  · exact mem_pseudoMoves_occupied h1
  · exact mem_castleMoves_occupied h1

/-- Applying a move from an occupied square flips the side to move. -/
theorem applyMove_sideToMove {b : Board} {m : ChessMove} {cp : Color × Piece}
    (h : pieceColorAt b m.source = some cp) :
    (applyMove b m).sideToMove = b.sideToMove.opp := by
  obtain ⟨c, p⟩ := cp
  unfold applyMove
  rw [h]

/-- `Game::make_move` on a legal move flips the side to move. -/
theorem gameMakeMove_sideToMove {b : Board} {m : ChessMove}
    (h : m ∈ legalMoves b) :
    (gameMakeMove b m).sideToMove = b.sideToMove.opp := by
  obtain ⟨cp, hcp⟩ := mem_legalMoves_occupied h
  unfold gameMakeMove
  rw [if_pos h]
  exact applyMove_sideToMove hcp

/-- `save_game_state` leaves the current position field alone. -/
theorem saveGameState_game (s : ChessGame) : (saveGameState s).game = s.game := rfl

/-- `save_game_state` leaves the player colour alone. -/
theorem saveGameState_playerColor (s : ChessGame) :
    (saveGameState s).playerColor = s.playerColor := rfl

/-- `save_game_state` leaves the move history alone. -/
theorem saveGameState_moveHistory (s : ChessGame) :
    (saveGameState s).moveHistory = s.moveHistory := rfl

/-- With the cursor inside the log, `save_game_state` truncates just past
the cursor and appends the current position: the branch that skips the
truncation only runs with the cursor at the end, where truncation is the
identity. -/
theorem saveGameState_gameStates (s : ChessGame)
    (h : s.currentStateIndex < s.gameStates.length) :
    (saveGameState s).gameStates =
      s.gameStates.take (s.currentStateIndex + 1) ++ [s.game] := by
  unfold saveGameState
  by_cases hlt : s.currentStateIndex < s.gameStates.length - 1
  · rw [if_pos hlt]
  · rw [if_neg hlt, List.take_of_length_le (by omega)]

/-- With the cursor inside the log, `save_game_state` advances it by one. -/
theorem saveGameState_currentStateIndex (s : ChessGame)
    (h : s.currentStateIndex < s.gameStates.length) :
    (saveGameState s).currentStateIndex = s.currentStateIndex + 1 := by
  have hlen : (saveGameState s).gameStates.length = s.currentStateIndex + 2 := by
    rw [saveGameState_gameStates s h]
    simp [List.length_take]
    omega
  unfold saveGameState at hlen ⊢
  by_cases hlt : s.currentStateIndex < s.gameStates.length - 1 <;>
    simp only [if_pos, if_neg, hlt, if_true, if_false] at hlen ⊢ <;> omega



/-- A successful `parse_and_make_move` commits a legal move: field by
field, the position advances by the move, the snapshot log is truncated
just past the cursor and extended by the new position, the cursor follows,
and one history entry is appended. -/
theorem parseAndMakeMove_ok_fields {s : ChessGame} {input : String}
    {m : ChessMove} {s' : ChessGame}
    (hidx : s.currentStateIndex < s.gameStates.length)
    (h : parseAndMakeMove s input = (.ok m, s')) :
    m ∈ legalMoves s.game
      ∧ s'.game = gameMakeMove s.game m
      ∧ s'.playerColor = s.playerColor
      ∧ s'.gameStates =
          s.gameStates.take (s.currentStateIndex + 1) ++ [gameMakeMove s.game m]
      ∧ s'.currentStateIndex = s.currentStateIndex + 1
      ∧ s'.moveHistory = s.moveHistory ++ [playerEntry s m] := by
  unfold parseAndMakeMove at h
  rcases hpu : parseUci input with e | mv <;> simp only [hpu] at h
  · rw [Prod.mk.injEq] at h
    exact absurd h.1 (by simp)
  · by_cases hleg : mv ∈ legalMoves s.game
    · rw [if_pos hleg, Prod.mk.injEq] at h
      obtain ⟨hm, hs⟩ := h
      have hmv : mv = m := by
        cases hm
        rfl
      subst hmv
      subst hs
      refine ⟨hleg, rfl, rfl, ?_, ?_, rfl⟩
      · exact saveGameState_gameStates _ hidx
      · exact saveGameState_currentStateIndex _ hidx
    · rw [if_neg hleg, Prod.mk.injEq] at h
      exact absurd h.1 (by simp)

/-- A failed `parse_and_make_move` leaves the session unchanged. -/
theorem parseAndMakeMove_error_snd {s : ChessGame} {input : String}
    {e : String} {s' : ChessGame}
    (h : parseAndMakeMove s input = (.error e, s')) : s' = s := by
  unfold parseAndMakeMove at h
  rcases hpu : parseUci input with e2 | mv <;> simp only [hpu] at h
  · rw [Prod.mk.injEq] at h
    exact h.2.symm
  · by_cases hleg : mv ∈ legalMoves s.game
    · rw [if_pos hleg, Prod.mk.injEq] at h
      exact absurd h.1 (by simp)
    · rw [if_neg hleg, Prod.mk.injEq] at h
      exact h.2.symm

/-- `make_computer_move` commits the engine's reply: field by field. -/
theorem makeComputerMove_fields (s : ChessGame) (m : ChessMove)
    (hidx : s.currentStateIndex < s.gameStates.length) :
    (makeComputerMove m s).game = gameMakeMove s.game m
      ∧ (makeComputerMove m s).playerColor = s.playerColor
      ∧ (makeComputerMove m s).gameStates =
          s.gameStates.take (s.currentStateIndex + 1) ++ [gameMakeMove s.game m]
      ∧ (makeComputerMove m s).currentStateIndex = s.currentStateIndex + 1
      ∧ (makeComputerMove m s).moveHistory = s.moveHistory ++ [computerEntry s m] := by
  unfold makeComputerMove
  refine ⟨rfl, rfl, ?_, ?_, rfl⟩
  · exact saveGameState_gameStates _ hidx
  · exact saveGameState_currentStateIndex _ hidx

/-- One undo iteration leaves the snapshot log alone. -/
theorem undoIter_gameStates (s : ChessGame) :
    (undoIter s).gameStates = s.gameStates := by
  unfold undoIter
  split
  · split <;> rfl
  · rfl

/-- One undo iteration leaves the current position alone. -/
theorem undoIter_game (s : ChessGame) : (undoIter s).game = s.game := by
  unfold undoIter
  split
  · split <;> rfl
  · rfl

/-- One undo iteration leaves the player colour alone. -/
theorem undoIter_playerColor (s : ChessGame) :
    (undoIter s).playerColor = s.playerColor := by
  unfold undoIter
  split
  · split <;> rfl
  · rfl

/-- One undo iteration steps the cursor back (saturating at 0). -/
theorem undoIter_currentStateIndex (s : ChessGame) :
    (undoIter s).currentStateIndex = s.currentStateIndex - 1 := by
  unfold undoIter
  split
  · split <;> rfl
  · next h => omega

/-- One undo iteration pops the history tail exactly when the cursor is
positive and the history non-empty. -/
theorem undoIter_moveHistory (s : ChessGame) :
    (undoIter s).moveHistory =
      if 0 < s.currentStateIndex ∧ s.moveHistory ≠ [] then s.moveHistory.dropLast
      else s.moveHistory := by
  unfold undoIter
  split <;> rename_i h1
  · split <;> rename_i h2
    · rw [if_pos ⟨h1, h2⟩]
    · rw [if_neg (fun hc => h2 hc.2)]
  · rw [if_neg (fun hc => h1 hc.1)]

/-- The undo loop leaves the snapshot log alone. -/
theorem undoLoop_gameStates (n : Nat) (s : ChessGame) :
    (undoLoop n s).gameStates = s.gameStates := by
  induction n generalizing s with
  | zero => rfl
  | succ k ih => rw [undoLoop, ih, undoIter_gameStates]

/-- The undo loop leaves the current position alone. -/
theorem undoLoop_game (n : Nat) (s : ChessGame) :
    (undoLoop n s).game = s.game := by
  induction n generalizing s with
  | zero => rfl
  | succ k ih => rw [undoLoop, ih, undoIter_game]

/-- The undo loop leaves the player colour alone. -/
theorem undoLoop_playerColor (n : Nat) (s : ChessGame) :
    (undoLoop n s).playerColor = s.playerColor := by
  induction n generalizing s with
  | zero => rfl
  | succ k ih => rw [undoLoop, ih, undoIter_playerColor]

/-- The undo loop steps the cursor back `n` times (saturating at 0). -/
theorem undoLoop_currentStateIndex (n : Nat) (s : ChessGame) :
    (undoLoop n s).currentStateIndex = s.currentStateIndex - n := by
  induction n generalizing s with
  | zero => rfl
  | succ k ih =>
    rw [undoLoop, ih, undoIter_currentStateIndex]
    omega

/-- One redo iteration changes the cursor only. -/
theorem redoIter_gameStates (s : ChessGame) :
    (redoIter s).gameStates = s.gameStates := by
  unfold redoIter
  split <;> rfl

/-- One redo iteration leaves the current position alone. -/
theorem redoIter_game (s : ChessGame) : (redoIter s).game = s.game := by
  unfold redoIter
  split <;> rfl

/-- One redo iteration leaves the player colour alone. -/
theorem redoIter_playerColor (s : ChessGame) :
    (redoIter s).playerColor = s.playerColor := by
  unfold redoIter
  split <;> rfl

/-- One redo iteration leaves the history alone. -/
theorem redoIter_moveHistory (s : ChessGame) :
    (redoIter s).moveHistory = s.moveHistory := by
  unfold redoIter
  split <;> rfl

/-- One redo iteration advances the cursor while short of the last slot. -/
theorem redoIter_currentStateIndex (s : ChessGame) :
    (redoIter s).currentStateIndex =
      if s.currentStateIndex < s.gameStates.length - 1 then s.currentStateIndex + 1
      else s.currentStateIndex := by
  unfold redoIter
  split <;> simp_all

/-- The redo loop leaves the snapshot log alone. -/
theorem redoLoop_gameStates (n : Nat) (s : ChessGame) :
    (redoLoop n s).gameStates = s.gameStates := by
  induction n generalizing s with
  | zero => rfl
  | succ k ih => rw [redoLoop, ih, redoIter_gameStates]

/-- The redo loop leaves the current position alone. -/
theorem redoLoop_game (n : Nat) (s : ChessGame) :
    (redoLoop n s).game = s.game := by
  induction n generalizing s with
  | zero => rfl
  | succ k ih => rw [redoLoop, ih, redoIter_game]

/-- The redo loop leaves the player colour alone. -/
theorem redoLoop_playerColor (n : Nat) (s : ChessGame) :
    (redoLoop n s).playerColor = s.playerColor := by
  induction n generalizing s with
  | zero => rfl
  | succ k ih => rw [redoLoop, ih, redoIter_playerColor]

/-- The redo loop leaves the history alone. -/
theorem redoLoop_moveHistory (n : Nat) (s : ChessGame) :
    (redoLoop n s).moveHistory = s.moveHistory := by
  induction n generalizing s with
  | zero => rfl
  | succ k ih => rw [redoLoop, ih, redoIter_moveHistory]

/-- The redo loop never moves the cursor backwards. -/
theorem redoLoop_currentStateIndex_ge (n : Nat) (s : ChessGame) :
    s.currentStateIndex ≤ (redoLoop n s).currentStateIndex := by
  induction n generalizing s with
  | zero => exact Nat.le_refl _
  | succ k ih =>
    rw [redoLoop]
    refine Nat.le_trans ?_ (ih (redoIter s))
    rw [redoIter_currentStateIndex]
    split <;> omega

/-- The redo loop keeps the cursor inside the log. -/
theorem redoLoop_currentStateIndex_lt (n : Nat) (s : ChessGame)
    (h : s.currentStateIndex < s.gameStates.length) :
    (redoLoop n s).currentStateIndex < s.gameStates.length := by
  induction n generalizing s with
  | zero => exact h
  | succ k ih =>
    rw [redoLoop]
    have h2 : (redoIter s).currentStateIndex < (redoIter s).gameStates.length := by
      rw [redoIter_gameStates, redoIter_currentStateIndex]
      split <;> omega
    have := ih (redoIter s) h2
    rwa [redoIter_gameStates] at this

/-- `undo_move` written with its lets inlined. -/
theorem undoMove_eq (s : ChessGame) :
    undoMove s =
      if s.currentStateIndex = 0 then (false, s)
      else if s.moveHistory ≠ [] then
        if s.currentStateIndex < (if isInComputerTurn s then 2 else 1) then (false, s)
        else (true,
          { undoLoop (if isInComputerTurn s then 2 else 1) s with
              game :=
                (undoLoop (if isInComputerTurn s then 2 else 1) s).gameStates.getD
                  (undoLoop (if isInComputerTurn s then 2 else 1) s).currentStateIndex
                  (undoLoop (if isInComputerTurn s then 2 else 1) s).game })
      else (false, s) := rfl

/-- `redo_move` written with its lets inlined. -/
theorem redoMove_eq (s : ChessGame) :
    redoMove s =
      if s.gameStates.length - 1 ≤ s.currentStateIndex then (false, s)
      else (true,
        { redoLoop
            (if s.currentStateIndex + 2 < s.gameStates.length ∧ ¬ isInComputerTurn s
             then 2 else 1) s with
            game :=
              (redoLoop
                (if s.currentStateIndex + 2 < s.gameStates.length ∧ ¬ isInComputerTurn s
                 then 2 else 1) s).gameStates.getD
                (redoLoop
                  (if s.currentStateIndex + 2 < s.gameStates.length ∧ ¬ isInComputerTurn s
                   then 2 else 1) s).currentStateIndex
                (redoLoop
                  (if s.currentStateIndex + 2 < s.gameStates.length ∧ ¬ isInComputerTurn s
                   then 2 else 1) s).game }) := rfl



/-- A legal commit (either the player's or the engine's) preserves the
session invariant. -/
theorem inv_commit {s s' : ChessGame} (inv : Inv s) {m : ChessMove}
    (hleg : m ∈ legalMoves s.game)
    (hg : s'.game = gameMakeMove s.game m)
    (hgs : s'.gameStates =
      s.gameStates.take (s.currentStateIndex + 1) ++ [gameMakeMove s.game m])
    (hidx : s'.currentStateIndex = s.currentStateIndex + 1)
    (hlen : s'.moveHistory.length = s.moveHistory.length + 1) : Inv s' := by
  have hTlen : (s.gameStates.take (s.currentStateIndex + 1)).length
      = s.currentStateIndex + 1 := by
    have := inv.idxLt
    simp [List.length_take]
    omega
  have hLen : s'.gameStates.length = s.currentStateIndex + 2 := by
    rw [hgs]
    simp [hTlen]
  constructor
  · rw [hidx, hlen]
    have := inv.histLe
    omega
  · rw [hidx, hLen]
    omega
  · rw [hidx, hgs, hg, List.getElem?_append]
    rw [if_neg (by omega)]
    rw [hTlen]
    simp
  · intro i a b h1 h2
    rw [hgs] at h1 h2
    by_cases hi : i + 1 < s.currentStateIndex + 1
    · have h1' : s.gameStates[i]? = some a := by
        rw [List.getElem?_append, if_pos (by omega), List.getElem?_take] at h1
        rwa [if_pos (by omega)] at h1
      have h2' : s.gameStates[i + 1]? = some b := by
        rw [List.getElem?_append, if_pos (by omega), List.getElem?_take] at h2
        rwa [if_pos (by omega)] at h2
      exact inv.alt i a b h1' h2'
    · rcases Nat.lt_or_ge (s.currentStateIndex + 1) (i + 1) with hgt | hge
      · exfalso
        have : (s.gameStates.take (s.currentStateIndex + 1)
            ++ [gameMakeMove s.game m])[i + 1]? = none := by
          apply List.getElem?_eq_none
          simp [hTlen]
          omega
        rw [this] at h2
        exact Option.noConfusion h2
      · have hieq : i = s.currentStateIndex := by omega
        subst hieq
        have h1' : a = s.game := by
          rw [List.getElem?_append, if_pos (by omega), List.getElem?_take,
            if_pos (by omega), inv.gameEq] at h1
          exact (Option.some.injEq .. ▸ h1).symm
        have h2' : b = gameMakeMove s.game m := by
          rw [List.getElem?_append, if_neg (by omega), hTlen] at h2
          simp at h2
          exact h2.symm
        rw [h1', h2']
        exact gameMakeMove_sideToMove hleg

/-- An undo preserves the session invariant. -/
theorem inv_undo {s : ChessGame} (inv : Inv s) : Inv (undoMove s).2 := by
  rw [undoMove_eq]
  by_cases h0 : s.currentStateIndex = 0
  · rw [if_pos h0]
    exact inv
  rw [if_neg h0]
  by_cases hh : s.moveHistory ≠ []
  case neg =>
    rw [if_neg hh]
    exact inv
  rw [if_pos hh]
  by_cases hlt : s.currentStateIndex < (if isInComputerTurn s then 2 else 1)
  · rw [if_pos hlt]
    exact inv
  rw [if_neg hlt]
  have hK : (if isInComputerTurn s then 2 else 1) = 1
      ∨ (if isInComputerTurn s then 2 else 1) = 2 := by
    split <;> simp
  have hhist : ∀ K, K = (if isInComputerTurn s then 2 else 1) →
      (undoLoop K s).moveHistory.length ≤ s.currentStateIndex - K := by
    intro K hKdef
    have hKle : K ≤ s.currentStateIndex := by omega
    rcases hK with h1 | h1 <;> rw [← hKdef] at h1 <;> subst h1
    · show (undoIter s).moveHistory.length ≤ s.currentStateIndex - 1
      rw [undoIter_moveHistory, if_pos ⟨by omega, hh⟩]
      have := inv.histLe
      have hne : s.moveHistory.length ≠ 0 := by
        simpa [List.length_eq_zero] using hh
      simp only [List.length_dropLast]
      omega
    · show (undoIter (undoIter s)).moveHistory.length ≤ s.currentStateIndex - 2
      have hfirst : (undoIter s).moveHistory = s.moveHistory.dropLast := by
        rw [undoIter_moveHistory, if_pos ⟨by omega, hh⟩]
      rw [undoIter_moveHistory]
      split
      · rw [hfirst]
        have := inv.histLe
        simp only [List.length_dropLast]
        omega
      · next hcond =>
        rw [hfirst]
        rw [undoIter_currentStateIndex, hfirst] at hcond
        have hempty : s.moveHistory.dropLast = [] := by
          by_cases hd : s.moveHistory.dropLast = []
          · exact hd
          · exact absurd ⟨by omega, hd⟩ hcond
        rw [hempty]
        simp
  have hu := hhist (if isInComputerTurn s then 2 else 1) rfl
  constructor
  · show (undoLoop _ s).moveHistory.length ≤ (undoLoop _ s).currentStateIndex
    rw [undoLoop_currentStateIndex]
    exact hu
  · show (undoLoop _ s).currentStateIndex < (undoLoop _ s).gameStates.length
    rw [undoLoop_currentStateIndex, undoLoop_gameStates]
    have := inv.idxLt
    omega
  · show (undoLoop _ s).gameStates[(undoLoop _ s).currentStateIndex]? = some _
    apply getElem?_eq_some_getD
    rw [undoLoop_currentStateIndex, undoLoop_gameStates]
    have := inv.idxLt
    omega
  · intro i a b h1 h2
    rw [show ({ undoLoop (if isInComputerTurn s then 2 else 1) s with
        game := _ } : ChessGame).gameStates
      = (undoLoop (if isInComputerTurn s then 2 else 1) s).gameStates from rfl,
      undoLoop_gameStates] at h1 h2
    exact inv.alt i a b h1 h2

/-- A redo preserves the session invariant. -/
theorem inv_redo {s : ChessGame} (inv : Inv s) : Inv (redoMove s).2 := by
  rw [redoMove_eq]
  by_cases h0 : s.gameStates.length - 1 ≤ s.currentStateIndex
  · rw [if_pos h0]
    exact inv
  rw [if_neg h0]
  have hge := redoLoop_currentStateIndex_ge
    (if s.currentStateIndex + 2 < s.gameStates.length ∧ ¬ isInComputerTurn s then 2 else 1) s
  have hlt := redoLoop_currentStateIndex_lt
    (if s.currentStateIndex + 2 < s.gameStates.length ∧ ¬ isInComputerTurn s then 2 else 1) s
    inv.idxLt
  constructor
  · show (redoLoop _ s).moveHistory.length ≤ (redoLoop _ s).currentStateIndex
    rw [redoLoop_moveHistory]
    exact Nat.le_trans inv.histLe hge
  · show (redoLoop _ s).currentStateIndex < (redoLoop _ s).gameStates.length
    rw [redoLoop_gameStates]
    exact hlt
  · show (redoLoop _ s).gameStates[(redoLoop _ s).currentStateIndex]? = some _
    apply getElem?_eq_some_getD
    rw [redoLoop_gameStates]
    exact hlt
  · intro i a b h1 h2
    rw [show ({ redoLoop _ s with game := _ } : ChessGame).gameStates
      = (redoLoop _ s).gameStates from rfl, redoLoop_gameStates] at h1 h2
    exact inv.alt i a b h1 h2

/-- Every reachable session satisfies the bookkeeping invariant. -/
theorem reachable_inv {s : ChessGame} (h : Reachable s) : Inv s := by
  induction h with
  | start c =>
    constructor
    · exact Nat.le_refl 0
    · exact Nat.zero_lt_one
    · rfl
    · intro i a b h1 h2
      have h2x : ([initialBoard] : List Board)[i + 1]? = some b := h2
      have hn : ([initialBoard] : List Board)[i + 1]? = none := by
        apply List.getElem?_eq_none
        simp
      rw [hn] at h2x
      exact Option.noConfusion h2x
  | player s input hr ih =>
    rcases heq : parseAndMakeMove s input with ⟨res, s'⟩
    cases res with
    | error e =>
      rw [parseAndMakeMove_error_snd heq]
      exact ih
    | ok m =>
      obtain ⟨hleg, hg, -, hgs, hidx, hmh⟩ := parseAndMakeMove_ok_fields ih.idxLt heq
      exact inv_commit ih hleg hg hgs hidx (by rw [hmh]; simp)
  | engine s m hr hleg ih =>
    obtain ⟨hg, -, hgs, hidx, hmh⟩ := makeComputerMove_fields s m ih.idxLt
    exact inv_commit ih hleg hg hgs hidx (by rw [hmh]; simp)
  | undo s hr ih => exact inv_undo ih
  | redo s hr ih => exact inv_redo ih

/-- `getD` agrees with a known `getElem?` value. -/
theorem getD_eq_of_getElem? {α : Type} {l : List α} {i : Nat} {x : α} (d : α)
    (h : l[i]? = some x) : l.getD i d = x := by
  simp [List.getD, h]

/-- Claim C1 (code behaviour at the failing input): after e2e4 (human) and
e7e5 (engine) it is the human's turn, yet undo removes exactly one ply
(cursor 2 to 1, one history entry popped); and at `sessionFourPliesUndo`,
where it is the engine's turn, undo removes two plies.  The spec's policy
is the reverse (one ply on the engine's turn, two on the human's), so the
code inverts the documented undo count. -/
theorem undoCount_inverted_at_failing_input :
    (isInComputerTurn sessionAfterE4E5 = false
      ∧ (undoMove sessionAfterE4E5).1 = true
      ∧ (undoMove sessionAfterE4E5).2.currentStateIndex + 1
          = sessionAfterE4E5.currentStateIndex
      ∧ (undoMove sessionAfterE4E5).2.moveHistory.length + 1
          = sessionAfterE4E5.moveHistory.length)
    ∧ (isInComputerTurn sessionFourPliesUndo = true
      ∧ (undoMove sessionFourPliesUndo).1 = true
      ∧ (undoMove sessionFourPliesUndo).2.currentStateIndex + 2
          = sessionFourPliesUndo.currentStateIndex
      ∧ (undoMove sessionFourPliesUndo).2.moveHistory.length + 2
          = sessionFourPliesUndo.moveHistory.length) := by
  refine ⟨⟨?_, ?_, ?_, ?_⟩, ⟨?_, ?_, ?_, ?_⟩⟩ <;> decide

/-- Claim C2 (counterexample): the session reached by committing e2e4 and
e7e5 and then undoing once is reachable, and its snapshot log holds three
entries while its history holds one — the claimed equality
`len(game_states) = len(move_history) + 1` fails, because undo pops
history entries but keeps every snapshot for redo. -/
theorem snapshot_history_equality_fails :
    Reachable sessionUndoOnce
      ∧ sessionUndoOnce.gameStates.length ≠ sessionUndoOnce.moveHistory.length + 1 := by
  constructor
  · have h1 : Reachable sessionAfterE4 :=
      Reachable.player _ "e2e4" (Reachable.start Color.white)
    have h2 : Reachable sessionAfterE4E5 :=
      Reachable.engine _ mvE7E5 h1 (by decide)
    exact Reachable.undo _ h2
  · decide

/-- Claim C2 (amended): on every reachable session the snapshot log is at
least one longer than the history (equality can fail after an undo, which
pops history but keeps snapshots). -/
theorem snapshot_history_inequality (s : ChessGame) (h : Reachable s) :
    s.moveHistory.length + 1 ≤ s.gameStates.length := by
  have inv := reachable_inv h
  have h1 := inv.histLe
  have h2 := inv.idxLt
  omega

/-- Witness for the amended C2 at the fresh session. -/
theorem snapshot_history_inequality_witness :
    (startGame Color.white).moveHistory.length + 1
      ≤ (startGame Color.white).gameStates.length :=
  snapshot_history_inequality _ (Reachable.start Color.white)

/-- Claim C3 (code behaviour at the failing input): when the engine's
output stream is already at end of stream before any best-move line, no
amount of loop iterations makes `get_best_move` return — the loop rereads
the empty stream forever instead of failing. -/
theorem getBestMove_eof_loops_forever :
    ∀ fuel : Nat, getBestMoveLines fuel [] = none := by
  intro fuel
  induction fuel with
  | zero => rfl
  | succ n ih => exact ih

/-- Claim C4 (counterexample): at the reachable session
`sessionFourPliesUndo` (four plies committed, one undo taken) a further
undo succeeds, removing two plies, but the redo taken immediately after
advances the cursor by only one, so the pre-undo cursor is not restored. -/
theorem undo_redo_not_inverse :
    Reachable sessionFourPliesUndo
      ∧ (undoMove sessionFourPliesUndo).1 = true
      ∧ (redoMove (undoMove sessionFourPliesUndo).2).2.currentStateIndex
          ≠ sessionFourPliesUndo.currentStateIndex := by
  refine ⟨?_, by decide, by decide⟩
  have h1 : Reachable sessionAfterE4 :=
    Reachable.player _ "e2e4" (Reachable.start Color.white)
  have h2 : Reachable sessionAfterE4E5 :=
    Reachable.engine _ mvE7E5 h1 (by decide)
  have h3 : Reachable (parseAndMakeMove sessionAfterE4E5 "g1f3").2 :=
    Reachable.player _ "g1f3" h2
  have h4 : Reachable sessionFourPlies :=
    Reachable.engine _ mvB8C6 h3 (by decide)
  exact Reachable.undo _ h4

/-- Claim C4 (amended): on every reachable session where undo succeeds
while the side to move is the human's (the one-ply undo), an immediate
redo succeeds and restores the cursor and the current position. -/
theorem undo_one_ply_redo_restores (s : ChessGame) (hr : Reachable s)
    (hp : isInComputerTurn s = false) (hs : (undoMove s).1 = true) :
    (redoMove (undoMove s).2).1 = true
      ∧ (redoMove (undoMove s).2).2.currentStateIndex = s.currentStateIndex
      ∧ (redoMove (undoMove s).2).2.game = s.game := by
  have inv := reachable_inv hr
  rw [undoMove_eq] at hs ⊢
  by_cases h0 : s.currentStateIndex = 0
  · rw [if_pos h0] at hs
    exact absurd hs (by simp)
  rw [if_neg h0] at hs ⊢
  by_cases hh : s.moveHistory ≠ []
  case neg =>
    rw [if_neg hh] at hs
    exact absurd hs (by simp)
  rw [if_pos hh] at hs ⊢
  simp only [hp, Bool.false_eq_true, if_false] at hs ⊢
  by_cases hlt : s.currentStateIndex < 1
  · exact absurd hlt (by omega)
  rw [if_neg hlt] at hs ⊢
  have hu1 : undoLoop 1 s = undoIter s := rfl
  have hugs : (undoLoop 1 s).gameStates = s.gameStates := undoLoop_gameStates 1 s
  have huidx : (undoLoop 1 s).currentStateIndex = s.currentStateIndex - 1 :=
    undoLoop_currentStateIndex 1 s
  have hupc : (undoLoop 1 s).playerColor = s.playerColor := undoLoop_playerColor 1 s
  have hprev : s.gameStates[s.currentStateIndex - 1]? =
      some (s.gameStates.getD (s.currentStateIndex - 1) (undoLoop 1 s).game) := by
    apply getElem?_eq_some_getD
    have := inv.idxLt
    omega
  have hflip : s.game.sideToMove =
      (s.gameStates.getD (s.currentStateIndex - 1) (undoLoop 1 s).game).sideToMove.opp := by
    apply inv.alt (s.currentStateIndex - 1) _ _ hprev
    rw [show s.currentStateIndex - 1 + 1 = s.currentStateIndex from by omega]
    exact inv.gameEq
  have hpeq : s.game.sideToMove = s.playerColor := by
    have := of_decide_eq_false hp
    exact not_ne_iff.mp this
  have hprevside :
      (s.gameStates.getD (s.currentStateIndex - 1) (undoLoop 1 s).game).sideToMove
        = s.playerColor.opp := by
    have := hflip.symm
    rw [hpeq] at this
    calc (s.gameStates.getD (s.currentStateIndex - 1) (undoLoop 1 s).game).sideToMove
        = (s.gameStates.getD (s.currentStateIndex - 1)
            (undoLoop 1 s).game).sideToMove.opp.opp := (Color.opp_opp _).symm
      _ = s.playerColor.opp := by rw [this]
  set r : ChessGame :=
    { undoLoop 1 s with
        game := (undoLoop 1 s).gameStates.getD
          (undoLoop 1 s).currentStateIndex (undoLoop 1 s).game } with hr_def
  have hrgame : r.game = s.gameStates.getD (s.currentStateIndex - 1) (undoLoop 1 s).game := by
    rw [hr_def]
    show (undoLoop 1 s).gameStates.getD (undoLoop 1 s).currentStateIndex (undoLoop 1 s).game = _
    rw [hugs, huidx]
  have hrgs : r.gameStates = s.gameStates := hugs
  have hridx : r.currentStateIndex = s.currentStateIndex - 1 := huidx
  have hrpc : r.playerColor = s.playerColor := hupc
  have hct : isInComputerTurn r = true := by
    unfold isInComputerTurn
    rw [hrgame, hrpc, hprevside]
    simp [Color.opp_ne]
  rw [redoMove_eq]
  have hnotend : ¬ (r.gameStates.length - 1 ≤ r.currentStateIndex) := by
    rw [hrgs, hridx]
    have := inv.idxLt
    omega
  rw [if_neg hnotend]
  have hone : (if r.currentStateIndex + 2 < r.gameStates.length ∧ ¬ isInComputerTurn r
      then 2 else 1) = 1 := by
    rw [if_neg]
    intro hc
    rw [hct] at hc
    exact hc.2 (by simp)
  rw [hone]
  have hr1 : redoLoop 1 r = redoIter r := rfl
  have hriter : (redoIter r).currentStateIndex = s.currentStateIndex := by
    rw [redoIter_currentStateIndex, if_pos (by rw [hrgs, hridx]; have := inv.idxLt; omega)]
    rw [hridx]
    omega
  refine ⟨rfl, ?_, ?_⟩
  · show (redoLoop 1 r).currentStateIndex = s.currentStateIndex
    rw [hr1, hriter]
  · show (redoLoop 1 r).gameStates.getD (redoLoop 1 r).currentStateIndex
        (redoLoop 1 r).game = s.game
    rw [hr1, redoIter_gameStates, hriter, hrgs]
    exact getD_eq_of_getElem? _ inv.gameEq

/-- Witness for the amended C4: after e2e4 and e7e5 it is the human's
turn; undo succeeds and the immediate redo restores cursor and position. -/
theorem undo_one_ply_redo_restores_witness :
    (redoMove (undoMove sessionAfterE4E5).2).1 = true
      ∧ (redoMove (undoMove sessionAfterE4E5).2).2.currentStateIndex
          = sessionAfterE4E5.currentStateIndex
      ∧ (redoMove (undoMove sessionAfterE4E5).2).2.game = sessionAfterE4E5.game := by
  apply undo_one_ply_redo_restores sessionAfterE4E5
  · exact Reachable.engine _ mvE7E5
      (Reachable.player _ "e2e4" (Reachable.start Color.white)) (by decide)
  · decide
  · decide

/-- Claim C5: a commit taken while the cursor is short of the last
snapshot (after one or more undos) first discards every snapshot strictly
past the cursor, appends the new position, and leaves the cursor at the
new end — for the player's commit path and the engine's alike. -/
theorem commit_after_undo_discards_branch :
    (∀ (s : ChessGame) (input : String) (m : ChessMove) (s' : ChessGame),
        s.currentStateIndex < s.gameStates.length - 1 →
        parseAndMakeMove s input = (.ok m, s') →
        s'.gameStates =
          s.gameStates.take (s.currentStateIndex + 1) ++ [gameMakeMove s.game m]
          ∧ s'.currentStateIndex + 1 = s'.gameStates.length)
    ∧ (∀ (s : ChessGame) (m : ChessMove),
        s.currentStateIndex < s.gameStates.length - 1 →
        (makeComputerMove m s).gameStates =
          s.gameStates.take (s.currentStateIndex + 1) ++ [gameMakeMove s.game m]
          ∧ (makeComputerMove m s).currentStateIndex + 1
            = (makeComputerMove m s).gameStates.length) := by
  constructor
  · intro s input m s' hlt heq
    obtain ⟨-, -, -, hgs, hidx, -⟩ := parseAndMakeMove_ok_fields (by omega) heq
    refine ⟨hgs, ?_⟩
    rw [hidx, hgs]
    have hT : (s.gameStates.take (s.currentStateIndex + 1)).length
        = s.currentStateIndex + 1 := by
      simp [List.length_take]
      omega
    simp [hT]
  · intro s m hlt
    obtain ⟨-, -, hgs, hidx, -⟩ := makeComputerMove_fields s m (by omega)
    refine ⟨hgs, ?_⟩
    rw [hidx, hgs]
    have hT : (s.gameStates.take (s.currentStateIndex + 1)).length
        = s.currentStateIndex + 1 := by
      simp [List.length_take]
      omega
    simp [hT]

/-- Witness for C5: at `sessionUndoOnce` the cursor (1) is short of the
last snapshot (2); committing d7d5 truncates the log to two snapshots,
appends the new position and parks the cursor at the end. -/
theorem commit_after_undo_discards_branch_witness :
    (parseAndMakeMove sessionUndoOnce "d7d5").2.gameStates
        = sessionUndoOnce.gameStates.take (sessionUndoOnce.currentStateIndex + 1)
          ++ [gameMakeMove sessionUndoOnce.game ⟨⟨3, 6⟩, ⟨3, 4⟩, none⟩]
      ∧ (parseAndMakeMove sessionUndoOnce "d7d5").2.currentStateIndex + 1
        = (parseAndMakeMove sessionUndoOnce "d7d5").2.gameStates.length :=
  commit_after_undo_discards_branch.1 sessionUndoOnce "d7d5"
    ⟨⟨3, 6⟩, ⟨3, 4⟩, none⟩ (parseAndMakeMove sessionUndoOnce "d7d5").2
    (by decide) (by decide)

/-- Claim C6: an input that parses structurally to a move outside the
legal-move set of the current position is rejected with the illegal-move
error, the session returned unchanged. -/
theorem illegal_move_rejected (s : ChessGame) (input : String) (m : ChessMove)
    (hp : parseUci input = .ok m) (hleg : m ∉ legalMoves s.game) :
    parseAndMakeMove s input = (.error "Move is not legal in current position", s) := by
  unfold parseAndMakeMove
  simp only [hp]
  rw [if_neg hleg]

/-- Witness for C6: e2e5 parses structurally but the pawn cannot reach e5
in one step from the initial position; the fresh session is unchanged. -/
theorem illegal_move_rejected_witness :
    parseAndMakeMove (startGame Color.white) "e2e5"
      = (.error "Move is not legal in current position", startGame Color.white) :=
  illegal_move_rejected (startGame Color.white) "e2e5" ⟨⟨4, 1⟩, ⟨4, 4⟩, none⟩
    (by decide) (by decide)

/-- Claim C7: rendered at history index 0 (replay from the initial
position), e2e4 is e4, g1f3 is Nf3, and the king move e1g1 (king on e1)
renders as 0-0. -/
theorem notation_roundtrip_initial :
    toAlgebraicNotation [] mvE2E4 0 = "e4"
      ∧ toAlgebraicNotation [] mvG1F3 0 = "Nf3"
      ∧ toAlgebraicNotation [] mvE1G1 0 = "0-0" := by
  refine ⟨?_, ?_, ?_⟩ <;> decide





/-- Claim C8: rendering a non-pawn, non-king move whose destination is
legally reachable by another like piece from a different origin yields the
piece letter followed by a disambiguating qualifier — the origin rank when
some such other piece shares the origin file, the origin file otherwise. -/
theorem disambiguation_emitted
    (history : List (ChessMove × String × String)) (idx : Nat) (m : ChessMove)
    (p : Piece) (board : Board)
    (hb : board = ((history.take idx).map (fun e => e.1)).foldl gameMakeMove initialBoard)
    (hp : pieceOn board m.source = some p)
    (hpawn : p ≠ Piece.pawn) (hking : p ≠ Piece.king)
    (hS : sameDestMoves board m p ≠ []) :
    ∃ rest : List Char,
      (toAlgebraicNotation history m idx).data =
        pieceChar p ::
          (if (sameDestMoves board m p).any
              (fun m2 => fileChar m2.source == fileChar m.source)
           then rankChar m.source else fileChar m.source) :: rest := by
  unfold toAlgebraicNotation
  rw [← hb]
  cases p with
  | pawn => exact absurd rfl hpawn
  | king => exact absurd rfl hking
  | queen =>
    simp only [hp, Option.some.injEq, sameDestMoves] at hS ⊢
    rw [if_neg (by simp), if_neg (by simp)]
    rw [if_pos (by simp), if_pos hS]
    by_cases hany : ((legalMoves board).filter (fun m2 =>
        decide (m2.dest = m.dest) && decide (pieceOn board m2.source = some Piece.queen)
          && decide (m2.source ≠ m.source))).any
        (fun m2 => fileChar m2.source == fileChar m.source)
    · rw [if_pos hany, if_pos hany]
      exact ⟨_, rfl⟩
    · rw [if_neg hany, if_neg hany]
      exact ⟨_, rfl⟩
  | rook =>
    simp only [hp, Option.some.injEq, sameDestMoves] at hS ⊢
    rw [if_neg (by simp), if_neg (by simp)]
    rw [if_pos (by simp), if_pos hS]
    by_cases hany : ((legalMoves board).filter (fun m2 =>
        decide (m2.dest = m.dest) && decide (pieceOn board m2.source = some Piece.rook)
          && decide (m2.source ≠ m.source))).any
        (fun m2 => fileChar m2.source == fileChar m.source)
    · rw [if_pos hany, if_pos hany]
      exact ⟨_, rfl⟩
    · rw [if_neg hany, if_neg hany]
      exact ⟨_, rfl⟩
  | bishop =>
    simp only [hp, Option.some.injEq, sameDestMoves] at hS ⊢
    rw [if_neg (by simp), if_neg (by simp)]
    rw [if_pos (by simp), if_pos hS]
    by_cases hany : ((legalMoves board).filter (fun m2 =>
        decide (m2.dest = m.dest) && decide (pieceOn board m2.source = some Piece.bishop)
          && decide (m2.source ≠ m.source))).any
        (fun m2 => fileChar m2.source == fileChar m.source)
    · rw [if_pos hany, if_pos hany]
      exact ⟨_, rfl⟩
    · rw [if_neg hany, if_neg hany]
      exact ⟨_, rfl⟩
  | knight =>
    simp only [hp, Option.some.injEq, sameDestMoves] at hS ⊢
    rw [if_neg (by simp), if_neg (by simp)]
    rw [if_pos (by simp), if_pos hS]
    by_cases hany : ((legalMoves board).filter (fun m2 =>
        decide (m2.dest = m.dest) && decide (pieceOn board m2.source = some Piece.knight)
          && decide (m2.source ≠ m.source))).any
        (fun m2 => fileChar m2.source == fileChar m.source)
    · rw [if_pos hany, if_pos hany]
      exact ⟨_, rfl⟩
    · rw [if_neg hany, if_neg hany]
      exact ⟨_, rfl⟩



/-- Witness for C8: rendering b1d2 after 1. d2d4 a7a6 2. g1f3 a6a5, with
the f3 knight also able to reach d2, emits N plus a qualifier (here the
origin file b, since f3 does not share the b file). -/
theorem disambiguation_emitted_witness :
    ∃ rest : List Char,
      (toAlgebraicNotation histNbd2 mvB1D2 4).data =
        pieceChar Piece.knight ::
          (if (sameDestMoves nbd2Board mvB1D2 Piece.knight).any
              (fun m2 => fileChar m2.source == fileChar mvB1D2.source)
           then rankChar mvB1D2.source else fileChar mvB1D2.source) :: rest :=
  disambiguation_emitted histNbd2 4 mvB1D2 Piece.knight nbd2Board rfl
    (by decide) (by decide) (by decide) (by decide)

/-- Claim C9: with an empty move history the undo command is a no-op
returning false, whatever the cursor (also when it is positive). -/
theorem undo_noop_on_empty_history (s : ChessGame) (h : s.moveHistory = []) :
    undoMove s = (false, s) := by
  rw [undoMove_eq]
  by_cases h0 : s.currentStateIndex = 0
  · rw [if_pos h0]
  · rw [if_neg h0, if_neg (by simp [h])]

/-- Witness for C9 at `sessionHistoryOrphan`, a session reached by redoing
plies whose history entries an earlier undo already popped: the history is
empty, the cursor positive, and undo changes nothing and returns false. -/
theorem undo_noop_on_empty_history_witness :
    undoMove sessionHistoryOrphan = (false, sessionHistoryOrphan)
      ∧ 0 < sessionHistoryOrphan.currentStateIndex :=
  ⟨undo_noop_on_empty_history sessionHistoryOrphan (by decide), by decide⟩

/-- Claim C10: a line that starts with the best-move keyword but carries
no second whitespace token does not make the read loop fail: the loop
skips it and goes on reading the following lines. -/
theorem bestmove_line_without_token_skipped (fuel : Nat) (l : String)
    (rest : List String) (h1 : strStartsWith l "bestmove" = true)
    (h2 : (splitWhitespace l).length < 2) :
    getBestMoveLines (fuel + 1) (l :: rest) = getBestMoveLines fuel rest := by
  have step : getBestMoveLines (fuel + 1) (l :: rest) =
      if strStartsWith l "bestmove" then
        match splitWhitespace l with
        | _ :: moveStr :: _ =>
          some ((chessMoveFromStr moveStr).mapError
            (fun _ => "Invalid move from Stockfish: " ++ moveStr))
        | _ => getBestMoveLines fuel rest
      else getBestMoveLines fuel rest := rfl
  rw [step, if_pos h1]
  rcases hsw : splitWhitespace l with - | ⟨t1, ts⟩
  · rfl
  · rcases ts with - | ⟨t2, ts2⟩
    · rfl
    · rw [hsw] at h2
      simp only [List.length_cons] at h2
      omega

/-- Witness for C10: the token-less line bestmove is skipped and the later
complete line bestmove e2e4 is parsed. -/
theorem bestmove_line_without_token_skipped_witness :
    getBestMoveLines 3 ["bestmove\n", "bestmove e2e4\n"]
        = getBestMoveLines 2 ["bestmove e2e4\n"]
      ∧ getBestMoveLines 2 ["bestmove e2e4\n"] = some (.ok mvE2E4) :=
  ⟨bestmove_line_without_token_skipped 2 "bestmove\n" ["bestmove e2e4\n"]
      (by decide) (by decide),
    by decide⟩

end Minichess
